import Mathlib

/-!
Verification of the conditional field-removal modifier
(`ModifierDiff` in src/src/mongo/db/ops/modifier_diff.cpp and `DiffNode` in
src/src/mongo/db/update/diff_node.cpp) over a shallow embedding of the
mutable BSON document tree.

Documents are modelled as the inductive `Value`; an element of a document is
identified by the path of field-name/array-index parts leading to it, and the
mutable-tree primitives (navigate, set-value-to-null, detach) become pure
functions from a document to an optional new document.
-/

namespace MongoDiff

/-- A BSON value: the document tree of typed elements.  Object children are an
ordered association list (BSON permits duplicate keys; lookups find the first),
array children are an ordered list. -/
inductive Value where
  | nullV : Value
  | intV : Int → Value
  | strV : String → Value
  | obj : List (String × Value) → Value
  | arr : List Value → Value
deriving Repr

/-- Three-way comparison of integers, mongo `compareNumbers` style. -/
def threeWay (a b : Int) : Int :=
  if a < b then -1 else if b < a then 1 else 0

/-- Three-way codepoint comparison of character lists. -/
def cmpCharList : List Char → List Char → Int
  | [], [] => 0
  | [], _ :: _ => -1
  | _ :: _, [] => 1
  | a :: as, b :: bs =>
    if a.val < b.val then -1 else if b.val < a.val then 1 else cmpCharList as bs

/-- Three-way binary (codepoint) comparison of strings: the default,
non-collation-aware string ordering. -/
def threeWayStr (a b : String) : Int :=
  cmpCharList a.data b.data

/-- A collator: locale-aware string comparison.  Accepted as a dependency by
the comparison entry point but, as the source shows, never passed (the call
sites pass the null collator). -/
structure Collator where
  cmpStr : String → String → Int

/-- mongo `canonicalizeBSONType` restricted to the modelled types:
Null 5, numbers 10, String 15, Object 20, Array 25. -/
def canonicalTypeRank : Value → Int
  | .nullV => 5
  | .intV _ => 10
  | .strV _ => 15
  | .obj _ => 20
  | .arr _ => 25

/-- String comparison under an optional collator; `none` is the binary
default ordering. -/
def compareStrings (coll : Option Collator) (a b : String) : Int :=
  match coll with
  | some c => c.cmpStr a b
  | none => threeWayStr a b

/-- Lexicographic list comparison with a supplied element comparison. -/
def lexCompareWith (cmp : α → α → Int) : List α → List α → Int
  | [], [] => 0
  | [], _ :: _ => -1
  | _ :: _, [] => 1
  | a :: as, b :: bs =>
    let c := cmp a b
    if c ≠ 0 then c else lexCompareWith cmp as bs

/-- Type-aware three-way value comparison (mongo `woCompare` on values):
different canonical types compare by rank; equal types compare componentwise,
object fields by name then value, arrays elementwise.  The `fuel` argument
bounds the recursion depth so that the definition is structurally recursive
(the value type nests lists, which rules out direct structural recursion);
one unit of fuel is spent per nesting level. -/
def compareValuesF (coll : Option Collator) : Nat → Value → Value → Int
  | 0, _, _ => 0
  | fuel + 1, v1, v2 =>
    match v1, v2 with
    | .nullV, .nullV => 0
    | .intV a, .intV b => threeWay a b
    | .strV a, .strV b => compareStrings coll a b
    | .obj a, .obj b =>
      lexCompareWith
        (fun p q =>
          let nc := threeWayStr p.1 q.1
          if nc ≠ 0 then nc else compareValuesF coll fuel p.2 q.2) a b
    | .arr a, .arr b => lexCompareWith (compareValuesF coll fuel) a b
    | w1, w2 => threeWay (canonicalTypeRank w1) (canonicalTypeRank w2)

/-- BSON enforces a maximum document nesting depth far below this bound, so
on every representable document the fuel-exhausted branch of `compareValuesF`
is unreachable and the comparison is exact. -/
def bsonDepthBound : Nat := 1000

/-- Type-aware three-way value comparison with an optional collator. -/
def compareValues (coll : Option Collator) (v1 v2 : Value) : Int :=
  compareValuesF coll bsonDepthBound v1 v2

/-- mutablebson `Element::compareWithBSONElement`: compares this element
(name `elemName`, value `elemVal`) with a BSON element (name `otherName`,
value `otherVal`), under an optional collator, optionally considering the
field names first.  Both call sites in the source pass the null collator and
`considerFieldName = false`. -/
def compareWithBSONElement (elemName : String) (elemVal : Value)
    (otherName : String) (otherVal : Value)
    (collator : Option Collator) (considerFieldName : Bool) : Int :=
  if considerFieldName then
    let nc := threeWayStr elemName otherName
    if nc ≠ 0 then nc else compareValues collator elemVal otherVal
  else compareValues collator elemVal otherVal

/-- Parse a path part as an array index: all-digit, base 10.  Models the
index parsing used by the external path walk. -/
def parseIndex? (s : String) : Option Nat :=
  match s.data with
  | [] => none
  | cs =>
    if cs.all (fun c => c.isDigit) then
      some (cs.foldl (fun n c => n * 10 + (c.toNat - 48)) 0)
    else none

/-- First child of an object with the given name (mongo
`findFirstChildNamed`: duplicates resolve to the first). -/
def lookupField : List (String × Value) → String → Option Value
  | [], _ => none
  | (n, v) :: rest, p => if n = p then some v else lookupField rest p

/-- Replace the value of the first child with the given name. -/
def setField : List (String × Value) → String → Value → List (String × Value)
  | [], _, _ => []
  | (n, v) :: rest, p, v' =>
    if n = p then (n, v') :: rest else (n, v) :: setField rest p v'

/-- Remove the first child with the given name (both its key and value). -/
def removeField : List (String × Value) → String → List (String × Value)
  | [], _ => []
  | (n, v) :: rest, p => if n = p then rest else (n, v) :: removeField rest p

/-- Navigate one step: the child of an element addressed by one path part. -/
def childOf (v : Value) (p : String) : Option Value :=
  match v with
  | .obj fields => lookupField fields p
  | .arr elems =>
    match parseIndex? p with
    | some i => elems[i]?
    | none => none
  | _ => none

/-- Can this element have children? -/
def isContainer : Value → Bool
  | .obj _ => true
  | .arr _ => true
  | _ => false

/-- Navigate a whole path from an element. -/
def getAt : Value → List String → Option Value
  | v, [] => some v
  | v, p :: rest =>
    match childOf v p with
    | some c => getAt c rest
    | none => none

/-- Rebuild an element with the child addressed by one part transformed by
`f`; fails if the child does not exist or `f` fails. -/
def modifyChild (p : String) (f : Value → Option Value) (v : Value) : Option Value :=
  match v with
  | .obj fields =>
    match lookupField fields p with
    | some c =>
      match f c with
      | some c' => some (.obj (setField fields p c'))
      | none => none
    | none => none
  | .arr elems =>
    match parseIndex? p with
    | some i =>
      match elems[i]? with
      | some c =>
        match f c with
        | some c' => some (.arr (elems.set i c'))
        | none => none
      | none => none
    | none => none
  | _ => none

/-- Rebuild a document with the element at `path` transformed by `f`. -/
def modifyAt (f : Value → Option Value) : Value → List String → Option Value
  | v, [] => f v
  | v, p :: rest => modifyChild p (fun c => modifyAt f c rest) v

/-- mutablebson `Element::setValueNull` and friends, as replacement of the
value at a path: `setAt doc path v` replaces the element at `path` with `v`
in place (the parent keeps its shape, only that child changes). -/
def setAt (doc : Value) (path : List String) (v : Value) : Option Value :=
  modifyAt (fun _ => some v) doc path

/-- Detach the child addressed by one part from its parent: an object parent
loses both the key and the value; an array parent loses the element (later
indices shift).  Fails when the child is absent or the element is a leaf. -/
def removeChild (p : String) (v : Value) : Option Value :=
  match v with
  | .obj fields =>
    match lookupField fields p with
    | some _ => some (.obj (removeField fields p))
    | none => none
  | .arr elems =>
    match parseIndex? p with
    | some i => if i < elems.length then some (.arr (elems.eraseIdx i)) else none
    | none => none
  | _ => none

/-- mutablebson `Element::remove`, as detachment of the element at a path
from its parent.  Detaching a parentless element (the document root, path
`[]`) is an internal-consistency failure and returns `none`. -/
def removeAt (doc : Value) (path : List String) : Option Value :=
  match path.getLast? with
  | none => none
  | some last => modifyAt (removeChild last) doc path.dropLast

/-- Is the element at `p` an Array? -/
def isArrayAt (doc : Value) (p : List String) : Bool :=
  match getAt doc p with
  | some (.arr _) => true
  | _ => false

/-- The name of the element at a path (the root has the empty name). -/
def elemName (p : List String) : String :=
  p.getLast?.getD ""

/-- Outcome of the external path walk. -/
inductive LocateOutcome where
  | nonExistent
  | notViable
  | found (idx : Nat) (elemPath : List String) (elem : Value)
deriving Repr

/-- Inner loop of the path walk: `cur` is the element reached by `curPath`
(whose last part has index `idx` in the concrete path), and the remaining
parts are walked one by one. -/
def locateGo (cur : Value) (curPath : List String) (idx : Nat) :
    List String → LocateOutcome
  | [] => .found idx curPath cur
  | p :: rest =>
    match childOf cur p with
    | some c => locateGo c (curPath ++ [p]) (idx + 1) rest
    | none => if isContainer cur then .found idx curPath cur else .notViable

/-- Modelled from the spec: `pathsupport::findLongestPrefix` (the repository
code is not under src/).  Walks the concrete path against the document from
the root, returning the index of the last path part for which an element
actually exists, and that element; if zero parts resolve it reports the
path-does-not-exist condition, and if a prefix resolves through a Scalar
(which cannot have children) it reports a non-viability failure. -/
def locate (doc : Value) (path : List String) : LocateOutcome :=
  match path with
  | [] => .nonExistent
  | p :: rest =>
    match childOf doc p with
    | some c => locateGo c [p] 0 rest
    | none => if isContainer doc then .nonExistent else .notViable

/-! ## The `ModifierDiff` call convention (src/src/mongo/db/ops/modifier_diff.cpp) -/

/-- The error statuses the modifier can return. -/
inductive Err where
  | badValue
  | badPath
  | pathNotViable
deriving Repr, DecidableEq

/-- `ModifierDiff`: the update path (pre-parsed into its parts, the parsing
itself being the external FieldRef), the index at which a positional
placeholder occurred (0 doubles as the constructor's initial value), and the
target literal with its BSON element field name. -/
structure ModifierDiff where
  updatePath : List String
  pathReplacementPosition : Nat
  valName : String
  val : Value
deriving Repr

/-- `ModifierDiff::PreparedState`: the per-document scratch record.  The
located element is represented by its resolved path (`none` is the document
end-sentinel `doc.end()`). -/
structure PreparedState where
  idxFound : Nat
  elemFound : Option (List String)
  noOp : Bool
deriving Repr

/-- `ExecInfo`: what prepare publishes to the update driver. -/
structure ExecInfo where
  fieldRef : List String
  noOp : Bool
deriving Repr

/-- The dotted rendering of a path. -/
def dottedField (path : List String) : String :=
  String.intercalate "." path

/-- Modelled from the spec: `fieldchecker::isUpdatable` (the repository code
is not under src/) rejects paths targeting protected/immutable fields; the
spec does not enumerate them beyond requiring well-formed parts, so the model
rejects the empty path and empty parts. -/
def isUpdatable (path : List String) : Bool :=
  !path.isEmpty && path.all (fun p => !p.isEmpty)

/-- Modelled from the spec: `fieldchecker::isPositional` (the repository code
is not under src/) reports whether the path contains a positional placeholder
part, the index of the first occurrence, and the number of occurrences. -/
def isPositional (path : List String) : Option (Nat × Nat) :=
  match path.findIdx? (fun p => p == "$") with
  | some i => some (i, (path.filter (fun p => p == "$")).length)
  | none => none

/-- `ModifierDiff::init`: validate the path, find the positional placeholder
and ensure at most one occurrence, and store the target value. -/
def ModifierDiff.init (updatePath : List String) (valName : String) (val : Value) :
    Except Err ModifierDiff :=
  if !isUpdatable updatePath then .error .badPath
  else
    match isPositional updatePath with
    | some (pos, count) =>
      if count > 1 then .error .badValue
      else .ok ⟨updatePath, pos, valName, val⟩
    | none => .ok ⟨updatePath, 0, valName, val⟩

/-- The positional-binding step at the top of `ModifierDiff::prepare`: when a
placeholder was found (position nonzero), an empty matched field is a
BadValue error, otherwise the placeholder part is replaced. -/
def ModifierDiff.boundPath? (m : ModifierDiff) (matchedField : String) :
    Except Err (List String) :=
  if m.pathReplacementPosition ≠ 0 then
    if matchedField.isEmpty then .error .badValue
    else .ok (m.updatePath.set m.pathReplacementPosition matchedField)
  else .ok m.updatePath

/-- `ModifierDiff::prepare`: bind the placeholder, locate the longest
existing prefix of the path (non-existence is folded into the no-op decision,
any other locate failure is propagated), and classify the operation: a no-op
unless the path fully exists and the located element's value compares equal
to the target (null collator, field names ignored).  The document is threaded
through unchanged: prepare never mutates it. -/
def ModifierDiff.prepare (m : ModifierDiff) (doc : Value) (matchedField : String) :
    Value × Except Err (PreparedState × ExecInfo) :=
  (doc,
    match m.boundPath? matchedField with
    | .error e => .error e
    | .ok path =>
      match locate doc path with
      | .notViable => .error .pathNotViable
      | .nonExistent =>
        .ok (⟨0, none, true⟩, ⟨path, true⟩)
      | .found idxFound elemPath elem =>
        let destExists := idxFound == path.length - 1
        let noOp :=
          if !destExists then true
          else
            compareWithBSONElement (elemName elemPath) elem
              m.valName m.val none false != 0
        .ok (⟨idxFound, some elemPath, noOp⟩, ⟨path, noOp⟩))

/-- Outcome of `ModifierDiff::apply`: a fatal debug assertion, a non-OK
status from a tree-mutation primitive, or the mutated document. -/
inductive ApplyOutcome where
  | fatalAssert
  | statusError
  | applied (newDoc : Value)
deriving Repr

/-- `ModifierDiff::apply`: asserts the operation is not a no-op; if the
located element's parent exists and is an Array, swap the element's value to
null in place (so sibling indices do not change), otherwise detach the
element from its parent; a failure of the tree primitive is surfaced. -/
def ModifierDiff.apply (ps : PreparedState) (doc : Value) : ApplyOutcome :=
  if ps.noOp then .fatalAssert
  else
    match ps.elemFound with
    | none => .fatalAssert
    | some ep =>
      if !ep.isEmpty && isArrayAt doc ep.dropLast then
        match setAt doc ep Value.nullV with
        | some nd => .applied nd
        | none => .statusError
      else
        match removeAt doc ep with
        | some nd => .applied nd
        | none => .statusError

/-- Outcome of a change-log call: a fatal invariant or one appended
"unset at path" entry. -/
inductive LogOutcome where
  | fatalInvariant
  | entry (path : String)
deriving Repr

/-- `ModifierDiff::log`: unconditionally appends one unset entry for the
dotted update path; there is no check of the prepared state. -/
def ModifierDiff.log (m : ModifierDiff) : LogOutcome :=
  .entry (dottedField m.updatePath)

/-! ## The `DiffNode` call convention (src/src/mongo/db/update/diff_node.cpp) -/

/-- `ModifierNode::ModifyResult` as used by this node. -/
inductive ModifyResult where
  | kNoOp
  | kNormalUpdate
deriving Repr, DecidableEq

/-- A `DiffNode`: the target literal (with its BSON element field name). -/
structure DiffNode where
  valName : String
  val : Value
deriving Repr

/-- `DiffNode::setCollator`: the body is empty — the collator is accepted and
discarded. -/
def DiffNode.setCollator (nd : DiffNode) (collator : Option Collator) : DiffNode :=
  nd

/-- Outcome of `DiffNode::updateExistingElement`: a fatal invariant failure,
or a modify result together with the (possibly mutated) document. -/
inductive UpdateOutcome where
  | fatalInvariant
  | result (r : ModifyResult) (newDoc : Value)
deriving Repr

/-- `DiffNode::updateExistingElement`: compare the element's value with the
stored literal (null collator, field names ignored); on inequality return the
no-op result with the document untouched; on equality require a parent
(`invariant(parent.ok())`), remove the element if the parent is not an Array,
otherwise set it to null; `invariantOK` turns a primitive failure into a
fatal invariant. -/
def DiffNode.updateExistingElement (nd : DiffNode) (doc : Value)
    (elemPath : List String) : UpdateOutcome :=
  match getAt doc elemPath with
  | none => .fatalInvariant
  | some v =>
    let compareVal :=
      compareWithBSONElement (elemName elemPath) v nd.valName nd.val none false
    if compareVal ≠ 0 then .result .kNoOp doc
    else
      if elemPath.isEmpty then .fatalInvariant
      else
        if !(isArrayAt doc elemPath.dropLast) then
          match removeAt doc elemPath with
          | some nd' => .result .kNormalUpdate nd'
          | none => .fatalInvariant
        else
          match setAt doc elemPath Value.nullV with
          | some nd' => .result .kNormalUpdate nd'
          | none => .fatalInvariant

/-- Outcome of `DiffNode::validateUpdate`: a fatal invariant, or the list of
`storage_validation::storageValid(element, deepCheck, recursionLevel)` calls
performed, in order. -/
inductive ValidateOutcome where
  | fatalInvariant
  | calls (l : List (Value × Bool × Nat))
deriving Repr

/-- `DiffNode::validateUpdate`: requires a normal-update result; then checks
only the left and the right sibling of the vacated position, each only if it
exists, each with a shallow check at recursion level 0.  The updated element
itself and the passed recursion level are not used. -/
def DiffNode.validateUpdate (updatedElement : Option Value)
    (leftSibling rightSibling : Option Value) (recursionLevel : Nat)
    (modifyResult : ModifyResult) : ValidateOutcome :=
  if modifyResult = .kNormalUpdate then
    .calls
      ((match leftSibling with
        | some l => [(l, false, 0)]
        | none => []) ++
       (match rightSibling with
        | some r => [(r, false, 0)]
        | none => []))
  else .fatalInvariant

/-- `DiffNode::logUpdate`: requires a normal-update result
(`invariant(modifyResult == ModifyResult::kNormalUpdate)`), then appends one
unset entry for the path taken. -/
def DiffNode.logUpdate (pathTaken : String) (modifyResult : ModifyResult) :
    LogOutcome :=
  if modifyResult = .kNormalUpdate then .entry pathTaken else .fatalInvariant

/-! ## Common-outcome wrappers for comparing the two call conventions -/

/-- A single outcome language for both call conventions. -/
inductive ConvOutcome where
  | noop
  | mutated (d : Value)
  | statusError
  | fatal
deriving Repr

/-- The `ModifierDiff` prepare-decision-then-apply cycle at an already
located element: the no-op decision of `ModifierDiff::prepare` (lines
133–135) followed, when effective, by `ModifierDiff::apply`. -/
def modifierDiffConv (valName : String) (val : Value) (doc : Value)
    (ep : List String) : ConvOutcome :=
  match getAt doc ep with
  | none => .fatal
  | some v =>
    if compareWithBSONElement (elemName ep) v valName val none false ≠ 0 then
      .noop
    else
      match ModifierDiff.apply ⟨ep.length - 1, some ep, false⟩ doc with
      | .applied nd => .mutated nd
      | .statusError => .statusError
      | .fatalAssert => .fatal

/-- The `DiffNode` call convention at the same located element. -/
def diffNodeConv (valName : String) (val : Value) (doc : Value)
    (ep : List String) : ConvOutcome :=
  match DiffNode.updateExistingElement ⟨valName, val⟩ doc ep with
  | .fatalInvariant => .fatal
  | .result .kNoOp _ => .noop
  | .result .kNormalUpdate d => .mutated d

/-! ## Sample documents used by concrete witnesses and counterexamples -/

/-- The spec scenario document with an object field: a document with one
field a holding an object with field b holding 5. -/
def docAB5 : Value := .obj [("a", .obj [("b", .intV 5)])]

/-- The spec scenario document with an array field: a document with one
field a holding the array [1, 2, 3]. -/
def docArr123 : Value := .obj [("a", .arr [.intV 1, .intV 2, .intV 3])]

/-! ## Helper lemmas about navigation and mutation -/

theorem getAt_append (a : List String) (v : Value) (b : List String) :
    getAt v (a ++ b) = (getAt v a).bind (fun w => getAt w b) := by
  induction a generalizing v with
  | nil => simp [getAt]
  | cons p rest ih =>
    cases h : childOf v p <;> simp [getAt, h, ih]

theorem getAt_single (v : Value) (p : String) : getAt v [p] = childOf v p := by
  cases h : childOf v p <;> simp [getAt, h]

theorem modifyChild_congr {f g : Value → Option Value} (p : String) (v : Value)
    (h : ∀ c, f c = g c) : modifyChild p f v = modifyChild p g v := by
  cases v <;> simp [modifyChild, h]

theorem modifyAt_single (f : Value → Option Value) (v : Value) (p : String) :
    modifyAt f v [p] = modifyChild p f v := by
  simp only [modifyAt]

theorem modifyAt_append (f : Value → Option Value) (a : List String) (v : Value)
    (b : List String) :
    modifyAt f v (a ++ b) = modifyAt (fun w => modifyAt f w b) v a := by
  induction a generalizing v with
  | nil => simp [modifyAt]
  | cons p rest ih =>
    simp only [List.cons_append, modifyAt]
    exact modifyChild_congr p v fun c => ih c

theorem lookupField_setField {fields : List (String × Value)} {p : String}
    {c c' : Value} (h : lookupField fields p = some c) :
    lookupField (setField fields p c') p = some c' := by
  induction fields with
  | nil => simp [lookupField] at h
  | cons q rest ih =>
    obtain ⟨n, w⟩ := q
    by_cases hn : n = p
    · subst hn
      simp [lookupField, setField]
    · simp only [lookupField, setField, if_neg hn] at h ⊢
      exact ih h

theorem lookupField_eq_none {fields : List (String × Value)} {p : String}
    (h : p ∉ fields.map Prod.fst) : lookupField fields p = none := by
  induction fields with
  | nil => simp [lookupField]
  | cons q rest ih =>
    obtain ⟨n, w⟩ := q
    simp only [List.map_cons, List.mem_cons, not_or] at h
    have hn : n ≠ p := fun he => h.1 he.symm
    simp only [lookupField, if_neg hn]
    exact ih h.2

theorem lookupField_removeField {fields : List (String × Value)} {p : String}
    (h : (fields.map Prod.fst).Nodup) :
    lookupField (removeField fields p) p = none := by
  induction fields with
  | nil => simp [removeField, lookupField]
  | cons q rest ih =>
    obtain ⟨n, w⟩ := q
    simp only [List.map_cons, List.nodup_cons] at h
    by_cases hn : n = p
    · subst hn
      simp only [removeField, if_pos rfl]
      exact lookupField_eq_none h.1
    · simp only [removeField, if_neg hn, lookupField, if_neg hn]
      exact ih h.2

theorem removeField_length {fields : List (String × Value)} {p : String}
    {v : Value} (h : lookupField fields p = some v) :
    (removeField fields p).length + 1 = fields.length := by
  induction fields with
  | nil => simp [lookupField] at h
  | cons q rest ih =>
    obtain ⟨n, w⟩ := q
    by_cases hn : n = p
    · simp [removeField, if_pos hn]
    · simp only [lookupField, if_neg hn] at h
      simp [removeField, if_neg hn, ih h]

theorem modifyAt_some {f : Value → Option Value} {pp : List String}
    {doc d' : Value} (h : modifyAt f doc pp = some d') :
    ∃ v v', getAt doc pp = some v ∧ f v = some v' ∧ getAt d' pp = some v' := by
  induction pp generalizing doc d' with
  | nil => exact ⟨doc, d', rfl, h, rfl⟩
  | cons p rest ih =>
    simp only [modifyAt] at h
    cases doc with
    | obj fields =>
      simp only [modifyChild] at h
      cases hc : lookupField fields p with
      | none => simp [hc] at h
      | some c =>
        simp only [hc] at h
        cases hm : modifyAt f c rest with
        | none => simp [hm] at h
        | some c' =>
          simp only [hm, Option.some.injEq] at h
          obtain ⟨v, v', hg, hf, hg'⟩ := ih hm
          refine ⟨v, v', ?_, hf, ?_⟩
          · simp [getAt, childOf, hc, hg]
          · subst h
            simp [getAt, childOf, lookupField_setField hc, hg']
    | arr elems =>
      simp only [modifyChild] at h
      cases hi : parseIndex? p with
      | none => simp [hi] at h
      | some i =>
        simp only [hi] at h
        cases hc : elems[i]? with
        | none => simp [hc] at h
        | some c =>
          simp only [hc] at h
          cases hm : modifyAt f c rest with
          | none => simp [hm] at h
          | some c' =>
            simp only [hm, Option.some.injEq] at h
            obtain ⟨v, v', hg, hf, hg'⟩ := ih hm
            refine ⟨v, v', ?_, hf, ?_⟩
            · simp [getAt, childOf, hi, hc, hg]
            · subst h
              have hlt : i < elems.length := (List.getElem?_eq_some.mp hc).1
              simp [getAt, childOf, hi, List.getElem?_set_eq_of_lt _ hlt, hg']
    | nullV => simp [modifyChild] at h
    | intV a => simp [modifyChild] at h
    | strV s => simp [modifyChild] at h

theorem modifyAt_of_getAt {f : Value → Option Value} {pp : List String}
    {doc v v' : Value} (hg : getAt doc pp = some v) (hf : f v = some v') :
    ∃ d', modifyAt f doc pp = some d' ∧ getAt d' pp = some v' := by
  induction pp generalizing doc with
  | nil =>
    simp only [getAt, Option.some.injEq] at hg
    subst hg
    exact ⟨v', by simpa [modifyAt] using hf, rfl⟩
  | cons p rest ih =>
    simp only [getAt] at hg
    cases hc : childOf doc p with
    | none => simp [hc] at hg
    | some c =>
      simp only [hc] at hg
      obtain ⟨c', hm, hg'⟩ := ih hg
      cases doc with
      | obj fields =>
        simp only [childOf] at hc
        refine ⟨.obj (setField fields p c'), ?_, ?_⟩
        · simp [modifyAt, modifyChild, hc, hm]
        · simp [getAt, childOf, lookupField_setField hc, hg']
      | arr elems =>
        simp only [childOf] at hc
        cases hi : parseIndex? p with
        | none => simp [hi] at hc
        | some i =>
          simp only [hi] at hc
          have hlt : i < elems.length := (List.getElem?_eq_some.mp hc).1
          refine ⟨.arr (elems.set i c'), ?_, ?_⟩
          · simp [modifyAt, modifyChild, hi, hc, hm]
          · simp [getAt, childOf, hi, List.getElem?_set_eq_of_lt _ hlt, hg']
      | nullV => simp [childOf] at hc
      | intV a => simp [childOf] at hc
      | strV s => simp [childOf] at hc

theorem getAt_concat_parent {doc v : Value} {pp : List String} {last : String}
    (h : getAt doc (pp ++ [last]) = some v) :
    ∃ pv, getAt doc pp = some pv ∧ childOf pv last = some v := by
  rw [getAt_append] at h
  cases hg : getAt doc pp with
  | none => simp [hg] at h
  | some pv =>
    simp only [hg, Option.some_bind] at h
    rw [getAt_single] at h
    exact ⟨pv, rfl, h⟩

theorem locateGo_found_getAt {doc : Value} {rest : List String}
    {cur : Value} {curPath : List String} {idx : Nat} {i : Nat}
    {rp : List String} {v : Value}
    (hcur : getAt doc curPath = some cur)
    (h : locateGo cur curPath idx rest = .found i rp v) :
    getAt doc rp = some v := by
  induction rest generalizing cur curPath idx with
  | nil =>
    simp only [locateGo, LocateOutcome.found.injEq] at h
    obtain ⟨-, h2, h3⟩ := h
    subst h2; subst h3
    exact hcur
  | cons p ps ih =>
    simp only [locateGo] at h
    cases hc : childOf cur p with
    | some c =>
      simp only [hc] at h
      have hcur' : getAt doc (curPath ++ [p]) = some c := by
        rw [getAt_append, hcur, Option.some_bind, getAt_single]
        exact hc
      exact ih hcur' h
    | none =>
      simp only [hc] at h
      cases hic : isContainer cur with
      | true =>
        simp only [hic, if_true, LocateOutcome.found.injEq] at h
        obtain ⟨-, h2, h3⟩ := h
        subst h2; subst h3
        exact hcur
      | false => simp [hic] at h

theorem locate_found_getAt {doc : Value} {path : List String} {i : Nat}
    {rp : List String} {v : Value} (h : locate doc path = .found i rp v) :
    getAt doc rp = some v := by
  cases path with
  | nil => simp [locate] at h
  | cons p rest =>
    simp only [locate] at h
    cases hc : childOf doc p with
    | some c =>
      simp only [hc] at h
      have hcur : getAt doc [p] = some c := by rw [getAt_single]; exact hc
      exact locateGo_found_getAt hcur h
    | none =>
      simp only [hc] at h
      cases hic : isContainer doc <;> simp [hic] at h

/-! ## Claim theorems -/

/-- Claim C1: for every document successfully prepared where the addressed
path fully exists, the operation is classified as a no-op exactly when the
located element's value compares unequal to the target value and as an
effective mutation exactly when the values compare equal (remove-on-match
polarity), in both call conventions. -/
theorem c1_noop_iff_values_differ (m : ModifierDiff) (doc : Value)
    (matched : String) (ps : PreparedState) (ei : ExecInfo)
    (rp : List String) (v : Value) (nd : DiffNode) (d2 : Value)
    (p2 : List String) (w : Value)
    (hp : (m.prepare doc matched).2 = .ok (ps, ei))
    (he : ps.elemFound = some rp)
    (hi : ps.idxFound = ei.fieldRef.length - 1)
    (hv : getAt doc rp = some v)
    (hw : getAt d2 p2 = some w) :
    ps.noOp = (compareValues none v m.val != 0)
    ∧ (nd.updateExistingElement d2 p2 = .result .kNoOp d2
        ↔ compareValues none w nd.val ≠ 0) := by
  constructor
  · simp only [ModifierDiff.prepare] at hp
    cases hb : m.boundPath? matched with
    | error e => simp [hb] at hp
    | ok path =>
      simp only [hb] at hp
      cases hl : locate doc path with
      | notViable => simp [hl] at hp
      | nonExistent =>
        simp only [hl, Except.ok.injEq, Prod.mk.injEq] at hp
        obtain ⟨hps, -⟩ := hp
        subst hps
        simp at he
      | found idx elemPath elem =>
        simp only [hl, Except.ok.injEq, Prod.mk.injEq] at hp
        obtain ⟨hps, hei⟩ := hp
        subst hps
        subst hei
        simp only at he hi ⊢
        have hrp : elemPath = rp := by simpa using he
        subst hrp
        have hve : getAt doc elemPath = some elem := locate_found_getAt hl
        rw [hv] at hve
        have hvelem : v = elem := by simpa using hve
        subst hvelem
        have hbeq : (idx == path.length - 1) = true := by simpa using hi
        have hcw : compareWithBSONElement (elemName elemPath) v m.valName m.val
            none false = compareValues none v m.val := rfl
        simp [hbeq, hcw]
  · simp only [DiffNode.updateExistingElement, hw]
    have hcw : compareWithBSONElement (elemName p2) w nd.valName nd.val
        none false = compareValues none w nd.val := rfl
    rw [hcw]
    by_cases hc : compareValues none w nd.val = 0
    · rw [if_neg (fun hne => hne hc)]
      simp only [hc, ne_eq, not_true_eq_false, iff_false]
      intro hEq
      split at hEq
      · exact UpdateOutcome.noConfusion hEq
      · split at hEq
        · split at hEq
          · simp only [UpdateOutcome.result.injEq] at hEq
            exact ModifyResult.noConfusion hEq.1
          · exact UpdateOutcome.noConfusion hEq
        · split at hEq
          · simp only [UpdateOutcome.result.injEq] at hEq
            exact ModifyResult.noConfusion hEq.1
          · exact UpdateOutcome.noConfusion hEq
    · rw [if_pos hc]
      simp [hc]

/-- Claim C1 witness: a concrete prepared document (target 7, current value
5) where the classification is a no-op, in both call conventions. -/
theorem c1_witness :
    (⟨1, some ["a", "b"], true⟩ : PreparedState).noOp
      = (compareValues none (.intV 5) ((⟨["a", "b"], 0, "a.b", .intV 7⟩ :
          ModifierDiff)).val != 0)
    ∧ (DiffNode.updateExistingElement ⟨"a.b", .intV 7⟩ docAB5 ["a", "b"]
        = .result .kNoOp docAB5
      ↔ compareValues none (.intV 5) ((⟨"a.b", .intV 7⟩ : DiffNode)).val ≠ 0) :=
  c1_noop_iff_values_differ ⟨["a", "b"], 0, "a.b", .intV 7⟩ docAB5 ""
    ⟨1, some ["a", "b"], true⟩ ⟨["a", "b"], true⟩ ["a", "b"] (.intV 5)
    ⟨"a.b", .intV 7⟩ docAB5 ["a", "b"] (.intV 5) rfl rfl rfl rfl rfl

/-- Claim C10: when the element's value compares unequal to the target,
DiffNode updateExistingElement returns the no-op result and performs no
mutation at all: the returned document is the input document itself. -/
theorem c10_noop_frame (nd : DiffNode) (doc : Value) (ep : List String)
    (v : Value) (hv : getAt doc ep = some v)
    (hne : compareValues none v nd.val ≠ 0) :
    nd.updateExistingElement doc ep = .result .kNoOp doc := by
  have hcw : compareWithBSONElement (elemName ep) v nd.valName nd.val
      none false = compareValues none v nd.val := rfl
  simp [DiffNode.updateExistingElement, hv, hcw, hne]

/-- Claim C10 witness: on the concrete document with a.b = 5 and target 7,
the unequal comparison yields the no-op result with the document returned
unchanged. -/
theorem c10_witness :
    DiffNode.updateExistingElement ⟨"a.b", .intV 7⟩ docAB5 ["a", "b"]
      = .result .kNoOp docAB5 :=
  c10_noop_frame ⟨"a.b", .intV 7⟩ docAB5 ["a", "b"] (.intV 5) rfl (by decide)

/-- Claim C8: the comparison that decides the no-op ignores the element's
name/key and produces the same result for every configured collator: the
collator handed to DiffNode setCollator is discarded, so the node's behaviour
is collator-independent, and the comparison as called (null collator, field
names off) equals the pure binary value comparison for any element names. -/
theorem c8_comparison_ignores_name_and_collator (nd : DiffNode)
    (c : Option Collator) (doc : Value) (p : List String)
    (n1 n2 o1 o2 : String) (v w : Value) :
    DiffNode.setCollator nd c = nd
    ∧ DiffNode.updateExistingElement (DiffNode.setCollator nd c) doc p
        = nd.updateExistingElement doc p
    ∧ compareWithBSONElement n1 v o1 w none false
        = compareWithBSONElement n2 v o2 w none false
    ∧ compareWithBSONElement n1 v o1 w none false = compareValues none v w :=
  ⟨rfl, rfl, rfl, rfl⟩

/-- Claim C4: after a successful positional binding, non-existence of the
addressed path is not an error: prepare returns success with the located
element set to the end-sentinel and the no-op flag set; any other
path-resolution failure is returned as an error; and prepare never mutates
the document. -/
theorem c4_nonexistence_is_noop (m : ModifierDiff) (doc : Value)
    (matched : String) (path : List String)
    (hb : m.boundPath? matched = .ok path) :
    (m.prepare doc matched).1 = doc
    ∧ (locate doc path = .nonExistent →
        (m.prepare doc matched).2 = .ok (⟨0, none, true⟩, ⟨path, true⟩))
    ∧ (locate doc path = .notViable →
        (m.prepare doc matched).2 = .error .pathNotViable) := by
  refine ⟨rfl, ?_, ?_⟩ <;> intro hl <;> simp [ModifierDiff.prepare, hb, hl]

/-- Claim C4 witness: with path a.b, a document without an a.b element
prepares successfully as a no-op with the end-sentinel, and a document where
a is a scalar (so the prefix resolves through a scalar) yields the
non-viability error. -/
theorem c4_witness :
    ((ModifierDiff.prepare ⟨["a", "b"], 0, "a.b", .intV 1⟩
        (.obj [("x", .intV 1)]) "").2
      = .ok (⟨0, none, true⟩, ⟨["a", "b"], true⟩))
    ∧ ((ModifierDiff.prepare ⟨["a", "b"], 0, "a.b", .intV 1⟩
        (.obj [("a", .intV 5)]) "").2
      = .error .pathNotViable) :=
  ⟨(c4_nonexistence_is_noop ⟨["a", "b"], 0, "a.b", .intV 1⟩
      (.obj [("x", .intV 1)]) "" ["a", "b"] rfl).2.1 rfl,
   (c4_nonexistence_is_noop ⟨["a", "b"], 0, "a.b", .intV 1⟩
      (.obj [("a", .intV 5)]) "" ["a", "b"] rfl).2.2 rfl⟩

/-- Claim C9 counterexample: the raw path whose parts are the placeholder
followed by a is accepted by init with replacement position 0, and prepare
with an empty matched field then returns success (a no-op), not the
missing-match BadValue error the claim requires for every path containing a
placeholder. -/
theorem c9_counterexample_placeholder_at_zero :
    ModifierDiff.init ["$", "a"] "$.a" (.intV 1)
      = .ok ⟨["$", "a"], 0, "$.a", .intV 1⟩
    ∧ (ModifierDiff.prepare ⟨["$", "a"], 0, "$.a", .intV 1⟩ (.obj []) "").2
      = .ok (⟨0, none, true⟩, ⟨["$", "a"], true⟩) :=
  ⟨rfl, rfl⟩

/-- Claim C9 (amended): for every prepare call on a modifier whose stored
placeholder position is nonzero (a placeholder found at a nonzero part
index), an empty matched-field string makes prepare return the BadValue
error with the document unmutated. -/
theorem c9_missing_match_rejection (m : ModifierDiff) (doc : Value)
    (hpos : m.pathReplacementPosition ≠ 0) :
    m.prepare doc "" = (doc, .error .badValue) := by
  simp [ModifierDiff.prepare, ModifierDiff.boundPath?, hpos,
    show ("".isEmpty) = true from rfl]

/-- Claim C9 witness: a placeholder at part index 1 with an empty matched
field is rejected with BadValue and the document is returned unchanged. -/
theorem c9_witness :
    ModifierDiff.prepare ⟨["a", "$", "b"], 1, "x", .intV 1⟩ (.obj []) ""
      = (.obj [], .error .badValue) :=
  c9_missing_match_rejection ⟨["a", "$", "b"], 1, "x", .intV 1⟩ (.obj [])
    (by decide)

/-- Claim C6 counterexample: on the concrete document with a.b = 5 and
target 7, prepare classifies the operation as a no-op (so no effective apply
can have happened), yet ModifierDiff log still returns a normal unset
entry — not a fatal assertion; the source's log performs no state check. -/
theorem c6_counterexample_log_without_apply :
    (ModifierDiff.prepare ⟨["a", "b"], 0, "a.b", .intV 7⟩ docAB5 "").2
      = .ok (⟨1, some ["a", "b"], true⟩, ⟨["a", "b"], true⟩)
    ∧ ModifierDiff.log ⟨["a", "b"], 0, "a.b", .intV 7⟩
      = .entry (dottedField ["a", "b"])
    ∧ LogOutcome.entry (dottedField ["a", "b"]) ≠ LogOutcome.fatalInvariant := by
  refine ⟨rfl, rfl, ?_⟩
  intro h
  exact LogOutcome.noConfusion h

/-- Claim C6 (amended): invoking ModifierDiff apply while the prepared state
says no-op is a fatal (debug) assertion, and invoking DiffNode logUpdate
with a result other than a normal update (that is, before an effective
apply) is a fatal invariant; ModifierDiff log, however, performs no such
check and unconditionally emits the unset entry. -/
theorem c6_contract_assertions (ps : PreparedState) (doc : Value) (p : String)
    (mr : ModifyResult) (m : ModifierDiff)
    (hnoop : ps.noOp = true) (hmr : mr ≠ .kNormalUpdate) :
    ModifierDiff.apply ps doc = .fatalAssert
    ∧ DiffNode.logUpdate p mr = .fatalInvariant
    ∧ ModifierDiff.log m = .entry (dottedField m.updatePath) := by
  refine ⟨?_, ?_, rfl⟩
  · simp [ModifierDiff.apply, hnoop]
  · simp [DiffNode.logUpdate, hmr]

/-- Claim C6 witness: a concrete no-op prepared state makes apply a fatal
assertion, a concrete no-op modify result makes logUpdate a fatal
invariant, and the concrete ModifierDiff log emits its unset entry. -/
theorem c6_witness :
    ModifierDiff.apply ⟨0, none, true⟩ (.obj []) = .fatalAssert
    ∧ DiffNode.logUpdate "a.b" .kNoOp = .fatalInvariant
    ∧ ModifierDiff.log ⟨["a", "b"], 0, "a.b", .intV 7⟩
      = .entry (dottedField ["a", "b"]) :=
  c6_contract_assertions ⟨0, none, true⟩ (.obj []) "a.b" .kNoOp
    ⟨["a", "b"], 0, "a.b", .intV 7⟩ rfl (by decide)

/-- Claim C5 counterexample: a null-substitution (array case) also reports
the normal-update result — the only signal validateUpdate receives — and
validateUpdate invoked with that result performs sibling validation calls;
so validation is not restricted to removals. -/
theorem c5_counterexample_null_substitution_validated :
    DiffNode.updateExistingElement ⟨"a.1", .intV 2⟩ docArr123 ["a", "1"]
      = .result .kNormalUpdate (.obj [("a", .arr [.intV 1, .nullV, .intV 3])])
    ∧ DiffNode.validateUpdate (some .nullV) (some (.intV 1)) (some (.intV 3)) 2
        .kNormalUpdate
      = .calls [(.intV 1, false, 0), (.intV 3, false, 0)] :=
  ⟨rfl, rfl⟩

/-- Claim C5 (amended): validateUpdate, invoked after an effective mutation
(normal-update result — the code makes no distinction between removal and
null-substitution), re-checks exactly the adjacent siblings it is handed:
one call per existing sibling, each a shallow check at the top recursion
level, only on the left or right sibling, and no calls at all when neither
sibling exists — never a whole-document re-validation. -/
theorem c5_sibling_validation (ue : Option Value) (l r : Option Value)
    (lvl : Nat) (cs : List (Value × Bool × Nat))
    (h : DiffNode.validateUpdate ue l r lvl .kNormalUpdate = .calls cs) :
    cs.length = (if l.isSome then 1 else 0) + (if r.isSome then 1 else 0)
    ∧ (∀ c ∈ cs, (some c.1 = l ∨ some c.1 = r) ∧ c.2.1 = false ∧ c.2.2 = 0)
    ∧ (l = none → r = none → cs = []) := by
  simp only [DiffNode.validateUpdate, eq_self_iff_true, if_true,
    ValidateOutcome.calls.injEq] at h
  subst h
  cases l <;> cases r <;> simp

/-- Claim C5 witness: with both siblings present, exactly two shallow
top-level sibling checks are performed. -/
theorem c5_witness :
    ([((.intV 1 : Value), false, 0), ((.intV 3 : Value), false, 0)].length
      = (if (some (.intV 1) : Option Value).isSome then 1 else 0)
        + (if (some (.intV 3) : Option Value).isSome then 1 else 0))
    ∧ (∀ c ∈ [((.intV 1 : Value), false, 0), ((.intV 3 : Value), false, 0)],
        (some c.1 = some (.intV 1) ∨ some c.1 = some (.intV 3))
        ∧ c.2.1 = false ∧ c.2.2 = 0)
    ∧ ((some (.intV 1) : Option Value) = none →
        (some (.intV 3) : Option Value) = none →
        [((.intV 1 : Value), false, 0), ((.intV 3 : Value), false, 0)] = []) :=
  c5_sibling_validation (some .nullV) (some (.intV 1)) (some (.intV 3)) 2
    [((.intV 1 : Value), false, 0), ((.intV 3 : Value), false, 0)] rfl

theorem exists_concat_of_ne_nil {l : List String} (h : l ≠ []) :
    ∃ pp last, l = pp ++ [last] := by
  rcases List.eq_nil_or_concat l with h1 | ⟨L, b, h2⟩
  · exact absurd h1 h
  · exact ⟨L, b, by simpa [List.concat_eq_append] using h2⟩

/-- Claim C2: for an effective mutation (values equal) whose located
element's parent is an Array, both conventions replace the element's value
with null in place: the resulting parent array has the same length, every
other index is unchanged, and the element is not removed. -/
theorem c2_array_null_in_place (nd : DiffNode) (doc : Value) (pp : List String)
    (last : String) (i : Nat) (l : List Value) (v : Value) (n j : Nat)
    (d' : Value)
    (hpar : getAt doc pp = some (.arr l))
    (hidx : parseIndex? last = some i)
    (hget : l[i]? = some v)
    (hcmp : compareValues none v nd.val = 0)
    (hset : setAt doc (pp ++ [last]) Value.nullV = some d')
    (hj : j ≠ i) :
    ModifierDiff.apply ⟨n, some (pp ++ [last]), false⟩ doc = .applied d'
    ∧ nd.updateExistingElement doc (pp ++ [last]) = .result .kNormalUpdate d'
    ∧ getAt d' pp = some (.arr (l.set i Value.nullV))
    ∧ (l.set i Value.nullV).length = l.length
    ∧ (l.set i Value.nullV)[j]? = l[j]? := by
  have hchild : childOf (.arr l) last = some v := by simp [childOf, hidx, hget]
  have hgetep : getAt doc (pp ++ [last]) = some v := by
    rw [getAt_append, hpar, Option.some_bind, getAt_single]
    exact hchild
  have harr : isArrayAt doc pp = true := by simp [isArrayAt, hpar]
  have hnil : ((pp ++ [last]).isEmpty) = false := by simp
  have hcw : compareWithBSONElement (elemName (pp ++ [last])) v nd.valName
      nd.val none false = compareValues none v nd.val := rfl
  refine ⟨?_, ?_, ?_, by simp, ?_⟩
  · simp [ModifierDiff.apply, hnil, harr, hset]
  · simp [DiffNode.updateExistingElement, hgetep, hcw, hcmp, hnil, harr, hset]
  · have hset2 : modifyAt (fun w => modifyChild last
        (fun _ => some Value.nullV) w) doc pp = some d' := by
      have hx := hset
      rw [setAt, modifyAt_append] at hx
      simpa only [modifyAt_single] using hx
    obtain ⟨pv, pv', hgv, hfv, hgd⟩ := modifyAt_some hset2
    rw [hpar] at hgv
    obtain rfl : Value.arr l = pv := by simpa using hgv
    have hlt : i < l.length := (List.getElem?_eq_some.mp hget).1
    simp only [modifyChild, hidx, hget] at hfv
    obtain rfl : Value.arr (l.set i Value.nullV) = pv' := by simpa using hfv
    exact hgd
  · exact List.getElem?_set_ne (Ne.symm hj)

/-- Claim C2 witness: on the concrete document with a = [1, 2, 3], target 2
at path a.1, both conventions produce [1, null, 3] in place: the length is
still 3 and index 0 is unchanged. -/
theorem c2_witness :
    ModifierDiff.apply ⟨1, some (["a"] ++ ["1"]), false⟩ docArr123
      = .applied (.obj [("a", .arr [.intV 1, .nullV, .intV 3])])
    ∧ DiffNode.updateExistingElement ⟨"a.1", .intV 2⟩ docArr123 (["a"] ++ ["1"])
      = .result .kNormalUpdate (.obj [("a", .arr [.intV 1, .nullV, .intV 3])])
    ∧ getAt (.obj [("a", .arr [.intV 1, .nullV, .intV 3])]) ["a"]
      = some (.arr ([Value.intV 1, .intV 2, .intV 3].set 1 Value.nullV))
    ∧ ([Value.intV 1, .intV 2, .intV 3].set 1 Value.nullV).length
      = [Value.intV 1, .intV 2, .intV 3].length
    ∧ ([Value.intV 1, .intV 2, .intV 3].set 1 Value.nullV)[0]?
      = [Value.intV 1, .intV 2, .intV 3][0]? :=
  c2_array_null_in_place ⟨"a.1", .intV 2⟩ docArr123 ["a"] "1" 1
    [Value.intV 1, .intV 2, .intV 3] (.intV 2) 1 0
    (.obj [("a", .arr [.intV 1, .nullV, .intV 3])])
    rfl rfl rfl (by decide) rfl (by decide)

/-- Claim C3 counterexample: at a parentless located element (the document
root) with equal values, the DiffNode convention hits the fatal
parent-exists invariant instead of detaching, and the ModifierDiff
convention surfaces the failing status of the remove primitive — neither
call convention detaches the element. -/
theorem c3_counterexample_root_not_detached :
    DiffNode.updateExistingElement ⟨"", .obj []⟩ (.obj []) [] = .fatalInvariant
    ∧ ModifierDiff.apply ⟨0, some [], false⟩ (.obj []) = .statusError :=
  ⟨rfl, rfl⟩

/-- Claim C3 (amended): for an effective mutation (values equal) whose
located element's parent is an Object, both conventions detach the element
from its parent entirely — the parent loses the key/value pair (the first
pair with that key; under duplicate-free keys the key is gone from the
parent and the path no longer resolves). -/
theorem c3_object_detach (nd : DiffNode) (doc : Value) (pp : List String)
    (last : String) (fields : List (String × Value)) (v : Value) (n : Nat)
    (d' : Value)
    (hpar : getAt doc pp = some (.obj fields))
    (hget : lookupField fields last = some v)
    (hcmp : compareValues none v nd.val = 0)
    (hrem : removeAt doc (pp ++ [last]) = some d') :
    ModifierDiff.apply ⟨n, some (pp ++ [last]), false⟩ doc = .applied d'
    ∧ nd.updateExistingElement doc (pp ++ [last]) = .result .kNormalUpdate d'
    ∧ getAt d' pp = some (.obj (removeField fields last))
    ∧ (removeField fields last).length + 1 = fields.length
    ∧ ((fields.map Prod.fst).Nodup → getAt d' (pp ++ [last]) = none) := by
  have hchild : childOf (.obj fields) last = some v := by simp [childOf, hget]
  have hgetep : getAt doc (pp ++ [last]) = some v := by
    rw [getAt_append, hpar, Option.some_bind, getAt_single]
    exact hchild
  have hobj : isArrayAt doc pp = false := by simp [isArrayAt, hpar]
  have hnil : ((pp ++ [last]).isEmpty) = false := by simp
  have hcw : compareWithBSONElement (elemName (pp ++ [last])) v nd.valName
      nd.val none false = compareValues none v nd.val := rfl
  have hrem2 : modifyAt (removeChild last) doc pp = some d' := by
    simpa [removeAt] using hrem
  obtain ⟨pv, pv', hgv, hfv, hgd⟩ := modifyAt_some hrem2
  rw [hpar] at hgv
  obtain rfl : Value.obj fields = pv := by simpa using hgv
  simp only [removeChild, hget] at hfv
  obtain rfl : Value.obj (removeField fields last) = pv' := by simpa using hfv
  refine ⟨?_, ?_, hgd, removeField_length hget, ?_⟩
  · simp [ModifierDiff.apply, hnil, hobj, hrem]
  · simp [DiffNode.updateExistingElement, hgetep, hcw, hcmp, hnil, hobj, hrem]
  · intro hnd
    rw [getAt_append, hgd, Option.some_bind, getAt_single]
    simp [childOf, lookupField_removeField hnd]

/-- Claim C3 witness: on the concrete document with a.b = 5 and target 5,
both conventions detach the b element: key and value are gone from the
parent object and a.b no longer resolves. -/
theorem c3_witness :
    ModifierDiff.apply ⟨1, some (["a"] ++ ["b"]), false⟩ docAB5
      = .applied (.obj [("a", .obj [])])
    ∧ DiffNode.updateExistingElement ⟨"a.b", .intV 5⟩ docAB5 (["a"] ++ ["b"])
      = .result .kNormalUpdate (.obj [("a", .obj [])])
    ∧ getAt (.obj [("a", .obj [])]) ["a"]
      = some (.obj (removeField [("b", .intV 5)] "b"))
    ∧ (removeField [("b", .intV 5)] "b").length + 1
      = [("b", Value.intV 5)].length
    ∧ (([("b", Value.intV 5)].map Prod.fst).Nodup →
        getAt (.obj [("a", .obj [])]) (["a"] ++ ["b"]) = none) :=
  c3_object_detach ⟨"a.b", .intV 5⟩ docAB5 ["a"] "b" [("b", .intV 5)]
    (.intV 5) 1 (.obj [("a", .obj [])]) rfl rfl (by decide) rfl

/-- Claim C7 counterexample: at the document root (no parent) with equal
values, the two call conventions diverge: the ModifierDiff cycle surfaces
the failing remove status while the DiffNode convention is a fatal
invariant. -/
theorem c7_counterexample_root_divergence :
    modifierDiffConv "x" (.obj [("x", .intV 1)]) (.obj [("x", .intV 1)]) []
      ≠ diffNodeConv "x" (.obj [("x", .intV 1)]) (.obj [("x", .intV 1)]) [] := by
  have h1 : modifierDiffConv "x" (.obj [("x", .intV 1)]) (.obj [("x", .intV 1)]) []
      = .statusError := by rfl
  have h2 : diffNodeConv "x" (.obj [("x", .intV 1)]) (.obj [("x", .intV 1)]) []
      = .fatal := by rfl
  rw [h1, h2]
  intro h
  exact ConvOutcome.noConfusion h

/-- Claim C7 (amended): at every located element other than the document
root — which is every element reachable from a successful prepare, since a
located element always lies at the end of a nonempty path — the two call
conventions compute the same function: the same no-op classification and the
same resulting document, including when the parent is an Array. -/
theorem c7_conventions_agree (valName : String) (val doc : Value)
    (ep : List String) (hne : ep ≠ []) :
    modifierDiffConv valName val doc ep = diffNodeConv valName val doc ep := by
  obtain ⟨pp, last, rfl⟩ := exists_concat_of_ne_nil hne
  cases hget : getAt doc (pp ++ [last]) with
  | none =>
    simp [modifierDiffConv, diffNodeConv, DiffNode.updateExistingElement, hget]
  | some v =>
    have hcw : compareWithBSONElement (elemName (pp ++ [last])) v valName val
        none false = compareValues none v val := rfl
    by_cases hcmp : compareValues none v val = 0
    · obtain ⟨pv, hpv, hchild⟩ := getAt_concat_parent hget
      have hnil : ((pp ++ [last]).isEmpty) = false := by simp
      cases pv with
      | obj fields =>
        have hobj : isArrayAt doc pp = false := by simp [isArrayAt, hpv]
        simp only [childOf] at hchild
        have hfv : removeChild last (.obj fields)
            = some (.obj (removeField fields last)) := by
          simp [removeChild, hchild]
        obtain ⟨d', hd', -⟩ := modifyAt_of_getAt hpv hfv
        have hrem : removeAt doc (pp ++ [last]) = some d' := by
          simpa [removeAt] using hd'
        simp [modifierDiffConv, diffNodeConv, DiffNode.updateExistingElement,
          ModifierDiff.apply, hget, hcw, hcmp, hnil, hobj, hrem]
      | arr elems =>
        have harr : isArrayAt doc pp = true := by simp [isArrayAt, hpv]
        obtain ⟨d', hd', -⟩ :=
          modifyAt_of_getAt (f := fun _ => some Value.nullV) hget rfl
        have hset : setAt doc (pp ++ [last]) Value.nullV = some d' := hd'
        simp [modifierDiffConv, diffNodeConv, DiffNode.updateExistingElement,
          ModifierDiff.apply, hget, hcw, hcmp, hnil, harr, hset]
      | nullV => simp [childOf] at hchild
      | intV a => simp [childOf] at hchild
      | strV s => simp [childOf] at hchild
    · simp [modifierDiffConv, diffNodeConv, DiffNode.updateExistingElement,
        hget, hcw, hcmp]

/-- Claim C7 witness: the two conventions agree on the concrete effective
mutation at a.b = 5 with target 5. -/
theorem c7_witness :
    modifierDiffConv "a.b" (.intV 5) docAB5 ["a", "b"]
      = diffNodeConv "a.b" (.intV 5) docAB5 ["a", "b"] :=
  c7_conventions_agree "a.b" (.intV 5) docAB5 ["a", "b"] (by decide)

end MongoDiff
